import Mathlib

/-!
Verification development for `audit_upgrade.py`, a Debian package-upgrade
audit pipeline.  The Python source is shallowly embedded: Python strings
become `String` (a wrapper around `List Char`), Python dicts with their
insertion-order semantics become association lists updated in place,
filesystem and network effects become explicit oracle parameters, and the
exception-catching backend wrappers become functions over an explicit
outcome type.  Python's ASCII case mapping, whitespace splitting and line
splitting are reproduced by executable helpers below; the exotic Unicode
case foldings of CPython are outside the model (every string the program
manipulates for control flow is ASCII).
-/

/-- Whitespace characters recognised by Python `str.split()` / `str.strip()`
(ASCII whitespace plus the common Unicode space code points). -/
def pyIsSpace (c : Char) : Bool :=
  c == ' ' || c == '\t' || c == '\n' || c == '\r' ||
  c.toNat == 0x0b || c.toNat == 0x0c ||
  (0x1c ≤ c.toNat && c.toNat ≤ 0x1f) ||
  c.toNat == 0x85 || c.toNat == 0xa0 || c.toNat == 0x1680 ||
  (0x2000 ≤ c.toNat && c.toNat ≤ 0x200a) ||
  c.toNat == 0x2028 || c.toNat == 0x2029 || c.toNat == 0x202f ||
  c.toNat == 0x205f || c.toNat == 0x3000

/-- Line-break characters recognised by Python `str.splitlines`. -/
def isLineBreak (c : Char) : Bool :=
  c == '\n' || c == '\r' || c.toNat == 0x0b || c.toNat == 0x0c ||
  c.toNat == 0x1c || c.toNat == 0x1d || c.toNat == 0x1e ||
  c.toNat == 0x85 || c.toNat == 0x2028 || c.toNat == 0x2029

/-- Worker for `pySplitlines`; `acc` holds the current line reversed and
the flag records that the previous character was a `\r` (so that a
following `\n` is part of the same break). -/
def splitlinesGo : List Char → List Char → Bool → List String
  | [], acc, _ => if acc.isEmpty then [] else [⟨acc.reverse⟩]
  | c :: rest, acc, afterCR =>
    if afterCR && c == '\n' then splitlinesGo rest acc false
    else if c == '\r' then ⟨acc.reverse⟩ :: splitlinesGo rest [] true
    else if isLineBreak c then ⟨acc.reverse⟩ :: splitlinesGo rest [] false
    else splitlinesGo rest (c :: acc) false

/-- Python `str.splitlines`: splits at line breaks (treating `\r\n` as one
break) and drops a trailing empty line. -/
def pySplitlines (s : String) : List String :=
  splitlinesGo s.data [] false

/-- Worker for `pySplitWs`; `acc` holds the current token reversed. -/
def splitWsGo : List Char → List Char → List String
  | [], acc => if acc.isEmpty then [] else [⟨acc.reverse⟩]
  | c :: rest, acc =>
    if pyIsSpace c then
      if acc.isEmpty then splitWsGo rest []
      else ⟨acc.reverse⟩ :: splitWsGo rest []
    else splitWsGo rest (c :: acc)

/-- Python `str.split()` with no argument: split on runs of whitespace,
never producing empty tokens. -/
def pySplitWs (s : String) : List String :=
  splitWsGo s.data []

/-- Python `str.strip()`: remove leading and trailing whitespace. -/
def pyStrip (s : String) : String :=
  ⟨((s.data.dropWhile pyIsSpace).reverse.dropWhile pyIsSpace).reverse⟩

/-- Python `str.lower()` restricted to the ASCII case mapping. -/
def lowerStr (s : String) : String :=
  ⟨s.data.map Char.toLower⟩

/-- Python `needle in hay` on strings: substring containment. -/
def pyIn (needle hay : String) : Bool :=
  decide (needle.data <:+: hay.data)

/-- Python `str(x)` on an `Optional[str]` value (`None` prints as "None"). -/
def pyOptStr : Option String → String
  | none => "None"
  | some s => s

/-- Insertion into a Python dict modelled as an association list:
an existing key keeps its position and gets the new value, a new key is
appended at the end (insertion order). -/
def dictInsert (d : List (String × String)) (k v : String) :
    List (String × String) :=
  if k ∈ d.map Prod.fst then
    d.map (fun p => if p.1 = k then (p.1, v) else p)
  else d ++ [(k, v)]

/-- Lookup in the association-list dict model (`dict.get`). -/
def dictGet (d : List (String × String)) (k : String) : Option String :=
  (d.find? (fun p => p.1 == k)).map Prod.snd

/-- Skip test of `parse_apt_list`: a line is processed unless it is empty
or contains no `/` (source: `if not line or "/" not in line: continue`). -/
def lineEligible (line : String) : Bool :=
  !(line == "") && line.data.contains '/'

/-- Text of `s` before its first `/` (source: `s.split("/")[0]`). -/
def beforeSlash (s : String) : String :=
  ⟨s.data.takeWhile (fun c => c != '/')⟩

/-- Package name extracted from a listing line
(source: `parts[0].split("/")[0]` with `parts = line.split()`). -/
def lineName (line : String) : String :=
  beforeSlash ((pySplitWs line).headD "")

/-- Version extracted from a listing line (source: `parts[1]` if
`len(parts) > 1` else `""`). -/
def lineVersion (line : String) : String :=
  (pySplitWs line).getD 1 ""

/-- One loop iteration of `parse_apt_list`: skip the line or store its
name/version pair into the dict. -/
def parseStep (d : List (String × String)) (line : String) :
    List (String × String) :=
  if lineEligible line then dictInsert d (lineName line) (lineVersion line)
  else d

/-- Embedding of `parse_apt_list`: fold the lines of the listing into a
dict, skipping ineligible lines. -/
def parse_apt_list (output : String) : List (String × String) :=
  (pySplitlines output).foldl parseStep []

/-- The four fixed candidate configuration paths of `find_config_path`,
in source order. -/
def candidatePaths (package : String) : List String :=
  ["/etc/" ++ package,
   "/etc/" ++ package ++ ".conf",
   "/usr/local/etc/" ++ package,
   "/usr/local/etc/" ++ package ++ ".conf"]

/-- The shell command string built by `find_config_path` for the depth-1
filename search (entries whose name contains the package name). -/
def searchCmd (package : String) : String :=
  "find /etc /usr/local/etc -maxdepth 1 -name \x27*" ++ package ++
  "*\x27 2>/dev/null"

/-- Embedding of `find_config_path`.  `pathExists` models
`os.path.exists`; `runCmd` models the `runCmd` helper (stdout of a shell
command, empty string when the command fails). -/
def find_config_path (pathExists : String → Bool) (runCmd : String → String)
    (package : String) : Option String :=
  match (candidatePaths package).find? pathExists with
  | some path => some path
  | none => (pySplitlines (runCmd (searchCmd package))).find? pathExists

/-- Definition following the specification text of the Config Locator:
return the first existing candidate among the four fixed paths, otherwise
the first existing result of the shallow search, otherwise none. -/
def locate_spec (pathExists : String → Bool) (searchResults : List String)
    (package : String) : Option String :=
  match (candidatePaths package).find? pathExists with
  | some path => some path
  | none => searchResults.find? pathExists

/-- Outcome of one HTTP request to a text-generation backend, as observed
by the `try` block: either the extracted `choices[0].message.content`
string, or the text of the raised exception. -/
inductive BackendOutcome where
  | ok (content : String)
  | failed (cause : String)

/-- Embedding of `openai_request`: strip the content on success, return a
synthetic failure string on any exception. -/
def openai_request (outcome : BackendOutcome) : String :=
  match outcome with
  | .ok content => pyStrip content
  | .failed cause => "OpenAI request failed: " ++ cause

/-- Embedding of `openllm_request`: same shape, different failure prefix. -/
def openllm_request (outcome : BackendOutcome) : String :=
  match outcome with
  | .ok content => pyStrip content
  | .failed cause => "OpenLLM request failed: " ++ cause

/-- The prompt text built by `analyze_package` before the optional
configuration-file block is appended. -/
def basePrompt (name current candidate : String) (config_path : Option String)
    (changelog : String) : String :=
  "Nous envisageons de mettre à jour le paquet " ++ name ++
  " de la version " ++ current ++ " vers " ++ candidate ++
  ". Voici le changelog ou les notes de version de la nouvelle version:\n\n" ++
  changelog ++
  "\n\nIndique s\x27il existe des breaking changes. Si oui, analyse la compatibilité du fichier de configuration actuel situé à l\x27emplacement suivant : " ++
  pyOptStr config_path ++
  ". Résume en quelques lignes en français et conclus par \x27safe\x27 ou \x27not safe\x27."

/-- The fenced configuration-content block appended to the prompt. -/
def fenceStr (content : String) : String :=
  "\n\nConfiguration actuelle:\n```\n" ++ content ++ "\n```"

/-- Prompt construction of `analyze_package`.  `isfile` models
`os.path.isfile`; `readFile` models opening and reading the file (`none`
when the read raises).  The guard mirrors Python truthiness:
`if config_path and os.path.isfile(config_path)`. -/
def buildPrompt (isfile : String → Bool) (readFile : String → Option String)
    (name current candidate : String) (config_path : Option String)
    (changelog : String) : String :=
  let prompt := basePrompt name current candidate config_path changelog
  match config_path with
  | none => prompt
  | some p =>
    if p != "" && isfile p then
      match readFile p with
      | some content => prompt ++ fenceStr content
      | none => prompt
    else prompt

/-- The per-package audit record returned by `analyze_package`
(the Python dict with fixed keys). -/
structure AuditItem where
  name : String
  current : String
  candidate : String
  config : Option String
  breaking : Bool
  safe : Bool
  summary : String
  deriving DecidableEq

/-- Embedding of `analyze_package`.  The two network oracles map the final
prompt to the observed outcome of the corresponding request function; the
credential and URL arguments of the source only parameterise the HTTP
call and are absorbed into the oracles. -/
def analyze_package (isfile : String → Bool) (readFile : String → Option String)
    (netOpenai netOpenllm : String → BackendOutcome)
    (llm name current candidate : String) (config_path : Option String)
    (changelog : String) : AuditItem :=
  let prompt := buildPrompt isfile readFile name current candidate config_path changelog
  let answer :=
    if llm == "openllm" then openllm_request (netOpenllm prompt)
    else openai_request (netOpenai prompt)
  let safe := pyIn "safe" (lowerStr answer) && !(pyIn "not safe" (lowerStr answer))
  let breaking := pyIn "breaking" (lowerStr answer)
  { name := name, current := current, candidate := candidate,
    config := config_path, breaking := breaking, safe := safe,
    summary := answer }

/-- The block of Markdown lines emitted for one audit result by
`generate_report` (sub-heading, four fixed fields, optional configuration
line under Python truthiness, analysis line). -/
def mdItemLines (it : AuditItem) : List String :=
  ["## " ++ it.name,
   "- Version actuelle : " ++ it.current,
   "- Version disponible : " ++ it.candidate,
   "- Breaking change : " ++ (if it.breaking then "Oui" else "Non"),
   "- Statut : " ++ (if it.safe then "safe" else "not safe")] ++
  (if it.config.getD "" ≠ "" then
    ["- Fichier de configuration : `" ++ it.config.getD "" ++ "`"]
   else []) ++
  ["- Analyse : " ++ it.summary ++ "\n"]

/-- The Markdown `lines` list of `generate_report`: header first, then the
per-result blocks accumulated by the loop. -/
def mdLines (items : List AuditItem) : List String :=
  items.foldl (fun lines it => lines ++ mdItemLines it)
    ["# Audit de mise à jour\n"]

/-- The fixed HTML preamble lines of `generate_report`. -/
def htmlHeaderLines : List String :=
  ["<html><body>", "<h1>Audit de mise à jour</h1>", "<table border=\x271\x27>",
   "<tr><th>Paquet</th><th>Actuelle</th><th>Disponible</th><th>Breaking</th><th>Statut</th><th>Configuration</th><th>Analyse</th></tr>"]

/-- The HTML table row emitted for one audit result. -/
def htmlRow (it : AuditItem) : String :=
  "<tr><td>" ++ it.name ++ "</td><td>" ++ it.current ++ "</td><td>" ++
  it.candidate ++ "</td><td>" ++ (if it.breaking then "Oui" else "Non") ++
  "</td><td>" ++ (if it.safe then "safe" else "not safe") ++ "</td><td>" ++
  it.config.getD "" ++ "</td><td>" ++ it.summary ++ "</td></tr>"

/-- The HTML `lines` list of `generate_report`. -/
def htmlLines (items : List AuditItem) : List String :=
  (items.foldl (fun lines it => lines ++ [htmlRow it]) htmlHeaderLines) ++
  ["</table>", "</body></html>"]

/-- Embedding of `generate_report`: join the format's lines with
newlines; only the exact format string "html" selects the HTML shape. -/
def generate_report (items : List AuditItem) (fmt : String) : String :=
  if fmt == "html" then String.intercalate "\n" (htmlLines items)
  else String.intercalate "\n" (mdLines items)

/-- Embedding of the per-package loop of `main`: parse both inventories,
then produce one `AuditItem` per upgradable package, in inventory order,
looking up the installed version (`installed.get(pkg, "")`), locating the
configuration and fetching the changelog for each package. -/
def runAudit (pathExists : String → Bool) (runCmd : String → String)
    (changelogOf : String → String) (isfile : String → Bool)
    (readFile : String → Option String)
    (netOpenai netOpenllm : String → BackendOutcome) (llm : String)
    (installedText upgradableText : String) : List AuditItem :=
  let installed := parse_apt_list installedText
  let upgradable := parse_apt_list upgradableText
  upgradable.map (fun pc =>
    analyze_package isfile readFile netOpenai netOpenllm llm pc.1
      ((dictGet installed pc.1).getD "") pc.2
      (find_config_path pathExists runCmd pc.1)
      (changelogOf pc.1))

/-- Recogniser for a Markdown section heading line of the report
(a line starting with the characters of a level-2 heading). -/
def isMdHeadingLine (l : String) : Bool :=
  decide ("## ".data <+: l.data)

/-- Recogniser for the per-package configuration-path line of the
Markdown report. -/
def isConfigLine (l : String) : Bool :=
  decide ("- Fichier de configuration : ".data <+: l.data)

/-- Recogniser for a data row of the HTML report (a line starting with a
row tag followed by a data cell, which distinguishes it from the header
row's `<tr><th>`). -/
def isHtmlRowLine (l : String) : Bool :=
  decide ("<tr><td>".data <+: l.data)

/-! Generic helper lemmas about lists and the string model. -/

theorem isPrefix_extend_right {α} {p lit : List α} (h : p <+: lit) (rest : List α) :
    p <+: lit ++ rest :=
  h.trans (List.prefix_append lit rest)

theorem prefix_append_absorb {α} {p a : List α} (b : List α) (h : p.length ≤ a.length) :
    p <+: a ++ b ↔ p <+: a :=
  ⟨fun hp => List.prefix_of_prefix_length_le hp (List.prefix_append a b) h,
   fun hp => isPrefix_extend_right hp b⟩

theorem not_prefix_append_of {α} {p lit : List α} (h1 : ¬ lit <+: p) (h2 : ¬ p <+: lit)
    (rest : List α) : ¬ p <+: lit ++ rest := fun hp =>
  (List.prefix_or_prefix_of_prefix (List.prefix_append lit rest) hp).elim h1 h2

theorem suffix_append_cancel {α} {t p c : List α} (h : t ++ c <:+ p ++ c) : t <:+ p := by
  obtain ⟨s, hs⟩ := h
  rw [← List.append_assoc] at hs
  exact ⟨s, List.append_cancel_right hs⟩

theorem not_infix_append {α} {n p c : List α} (H1 : ¬ n <:+: p) (H2 : ¬ n <:+: c)
    (H3 : ∀ i, i < n.length → 0 < i → ¬ n.take i <:+ p) : ¬ n <:+: p ++ c := by
  intro h
  obtain ⟨t, hnt, htpc⟩ := List.infix_iff_prefix_suffix.mp h
  by_cases hlen : t.length ≤ c.length
  · exact H2 (List.infix_iff_prefix_suffix.mpr
      ⟨t, hnt, List.suffix_of_suffix_length_le htpc (List.suffix_append p c) hlen⟩)
  · have hct : c <:+ t :=
      List.suffix_of_suffix_length_le (List.suffix_append p c) htpc (Nat.le_of_not_le hlen)
    obtain ⟨t', rfl⟩ := hct
    have ht'p : t' <:+ p := suffix_append_cancel htpc
    by_cases hn : n.length ≤ t'.length
    · exact H1 (List.infix_iff_prefix_suffix.mpr
        ⟨t', (prefix_append_absorb c hn).mp hnt, ht'p⟩)
    · have ht'n : t' <+: n :=
        List.prefix_of_prefix_length_le (List.prefix_append t' c) hnt
          (Nat.le_of_not_le hn)
      rcases List.eq_nil_or_concat t' with rfl | ⟨_, _, hne⟩
      · exact H2 (List.IsPrefix.isInfix hnt)
      · have hpos : 0 < t'.length := by
          subst hne; simp
        refine H3 t'.length (Nat.lt_of_not_le hn) hpos ?_
        rw [← List.prefix_iff_eq_take.mp ht'n]
        exact ht'p

theorem foldl_append_blocks {α β} (f : α → List β) (items : List α) (init : List β) :
    items.foldl (fun ls it => ls ++ f it) init = init ++ items.flatMap f := by
  induction items generalizing init with
  | nil => simp
  | cons it items ih => simp [ih, List.flatMap_cons]

theorem lowerStr_append (a b : String) :
    lowerStr (a ++ b) = lowerStr a ++ lowerStr b := by
  apply String.ext
  simp [lowerStr, String.data_append]

theorem str_ne_empty_of_data {s : String} (h : s.data ≠ []) : s ≠ "" := fun he =>
  h (by rw [he])

/-! Lemmas about the dict model. -/

theorem dictInsert_keys (d : List (String × String)) (k v : String) :
    (dictInsert d k v).map Prod.fst =
      if k ∈ d.map Prod.fst then d.map Prod.fst else d.map Prod.fst ++ [k] := by
  unfold dictInsert
  by_cases h : k ∈ d.map Prod.fst
  · rw [if_pos h, if_pos h, List.map_map]
    apply List.map_congr_left
    intro p _
    by_cases hp : p.1 = k
    · simp [hp]
    · simp [hp]
  · rw [if_neg h, if_neg h]
    simp

theorem mem_dictInsert_keys (d : List (String × String)) (k v k' : String) :
    k' ∈ (dictInsert d k v).map Prod.fst ↔ k' ∈ d.map Prod.fst ∨ k' = k := by
  rw [dictInsert_keys]
  by_cases h : k ∈ d.map Prod.fst
  · rw [if_pos h]
    exact ⟨Or.inl, fun hm => hm.elim id (fun he => he ▸ h)⟩
  · rw [if_neg h]
    simp

theorem dictInsert_keys_nodup (d : List (String × String)) (k v : String)
    (h : (d.map Prod.fst).Nodup) : ((dictInsert d k v).map Prod.fst).Nodup := by
  rw [dictInsert_keys]
  by_cases hk : k ∈ d.map Prod.fst
  · rwa [if_pos hk]
  · rw [if_neg hk, List.nodup_append]
    refine ⟨h, List.nodup_singleton k, ?_⟩
    intro a ha hb
    rw [List.mem_singleton] at hb
    exact hk (hb ▸ ha)

theorem find?_cons_pair_pos (pred : String × String → Bool) (a : String × String)
    (l : List (String × String)) (h : pred a = true) :
    (a :: l).find? pred = some a := by
  simp [List.find?, h]

theorem find?_cons_pair_neg (pred : String × String → Bool) (a : String × String)
    (l : List (String × String)) (h : pred a = false) :
    (a :: l).find? pred = l.find? pred := by
  simp [List.find?, h]

theorem find?_update (d : List (String × String)) (k v : String) :
    k ∈ d.map Prod.fst →
    (d.map (fun p => if p.1 = k then (p.1, v) else p)).find?
      (fun p => p.1 == k) = some (k, v) := by
  induction d with
  | nil => intro h; simp at h
  | cons p d ih =>
    intro h
    rw [List.map_cons, List.mem_cons] at h
    by_cases hp : p.1 = k
    · subst hp
      simp
    · have hmem : k ∈ d.map Prod.fst := by
        rcases h with h1 | h2
        · exact absurd h1.symm hp
        · exact h2
      rw [List.map_cons, if_neg hp,
        find?_cons_pair_neg _ _ _ (by simpa using hp)]
      exact ih hmem

theorem find?_append_last (d : List (String × String)) (k v : String)
    (h : k ∉ d.map Prod.fst) :
    (d ++ [(k, v)]).find? (fun p => p.1 == k) = some (k, v) := by
  rw [List.find?_append]
  have hnone : d.find? (fun p => p.1 == k) = none := by
    rw [List.find?_eq_none]
    intro p hp hbeq
    exact h (List.mem_map.mpr ⟨p, hp, by simpa using hbeq⟩)
  rw [hnone]
  simp

theorem dictGet_insert_self (d : List (String × String)) (k v : String) :
    dictGet (dictInsert d k v) k = some v := by
  unfold dictGet dictInsert
  by_cases h : k ∈ d.map Prod.fst
  · rw [if_pos h, find?_update d k v h]
    rfl
  · rw [if_neg h, find?_append_last d k v h]
    rfl

theorem find?_update_ne (d : List (String × String)) (k k' v : String)
    (h : k ≠ k') :
    (d.map (fun p => if p.1 = k' then (p.1, v) else p)).find?
      (fun p => p.1 == k) = d.find? (fun p => p.1 == k) := by
  induction d with
  | nil => rfl
  | cons p d ih =>
    by_cases hp : p.1 = k'
    · have hpk : ¬ p.1 = k := fun he => h (he.symm.trans hp)
      rw [List.map_cons, if_pos hp,
        find?_cons_pair_neg _ _ _ (by simpa using hpk),
        find?_cons_pair_neg _ _ _ (by simpa using hpk)]
      exact ih
    · rw [List.map_cons, if_neg hp]
      by_cases hpk : p.1 = k
      · rw [find?_cons_pair_pos _ _ _ (by simpa using hpk),
          find?_cons_pair_pos _ _ _ (by simpa using hpk)]
      · rw [find?_cons_pair_neg _ _ _ (by simpa using hpk),
          find?_cons_pair_neg _ _ _ (by simpa using hpk)]
        exact ih

theorem dictGet_insert_ne (d : List (String × String)) (k k' v : String)
    (h : k ≠ k') : dictGet (dictInsert d k' v) k = dictGet d k := by
  unfold dictGet dictInsert
  by_cases hmem : k' ∈ d.map Prod.fst
  · rw [if_pos hmem, find?_update_ne d k k' v h]
  · rw [if_neg hmem, List.find?_append]
    have : List.find? (fun p => p.1 == k) [(k', v)] = none := by
      simp [Ne.symm h]
    rw [this]
    simp

/-! Lemmas about the listing parser. -/

theorem parseStep_eligible (d : List (String × String)) (line : String)
    (he : lineEligible line = true) :
    parseStep d line = dictInsert d (lineName line) (lineVersion line) := by
  simp [parseStep, he]

theorem parseStep_skip (d : List (String × String)) (line : String)
    (he : ¬ lineEligible line = true) :
    parseStep d line = d := by
  simp [parseStep, he]

theorem foldl_parseStep_get (lines : List String) (d : List (String × String))
    (k : String) :
    dictGet (lines.foldl parseStep d) k =
      ((((lines.filter (fun l => lineEligible l && (lineName l == k))).map
        lineVersion).getLast?).elim (dictGet d k) some) := by
  induction lines generalizing d with
  | nil => simp
  | cons l lines ih =>
    rw [List.foldl_cons]
    by_cases he : lineEligible l
    · by_cases hk : lineName l = k
      · rw [parseStep_eligible d l he, ih,
          List.filter_cons_of_pos (by simp [he, hk]), List.map_cons]
        rcases hvs : (List.filter (fun l => lineEligible l && (lineName l == k)) lines).map lineVersion with _ | ⟨w, ws⟩
        · simp [hk, dictGet_insert_self]
        · rw [List.getLast?_cons_cons]
          rcases h2 : (w :: ws).getLast? with _ | u
          · exact absurd (List.getLast?_eq_none_iff.mp h2) (by simp)
          · simp
      · rw [parseStep_eligible d l he, ih,
          dictGet_insert_ne d k (lineName l) (lineVersion l) (fun hkk => hk hkk.symm),
          List.filter_cons_of_neg (by simp [hk])]
    · rw [parseStep_skip d l he, ih,
        List.filter_cons_of_neg (by simp [he])]

theorem foldl_parseStep_mem (lines : List String) (d : List (String × String))
    (k : String) :
    k ∈ (lines.foldl parseStep d).map Prod.fst ↔
      k ∈ d.map Prod.fst ∨ ∃ l ∈ lines, lineEligible l = true ∧ lineName l = k := by
  induction lines generalizing d with
  | nil => simp
  | cons l lines ih =>
    rw [List.foldl_cons, ih]
    by_cases he : lineEligible l
    · rw [parseStep_eligible d l he]
      constructor
      · rintro (hm | ⟨l', hl', hel, hn⟩)
        · rcases (mem_dictInsert_keys d (lineName l) (lineVersion l) k).mp hm with hm' | rfl
          · exact Or.inl hm'
          · exact Or.inr ⟨l, List.mem_cons_self l lines, he, rfl⟩
        · exact Or.inr ⟨l', List.mem_cons_of_mem l hl', hel, hn⟩
      · rintro (hm | ⟨l', hl', hel, hn⟩)
        · exact Or.inl ((mem_dictInsert_keys d (lineName l) (lineVersion l) k).mpr (Or.inl hm))
        · rcases List.mem_cons.mp hl' with rfl | hl''
          · exact Or.inl ((mem_dictInsert_keys d (lineName l') (lineVersion l') k).mpr (Or.inr hn.symm))
          · exact Or.inr ⟨l', hl'', hel, hn⟩
    · rw [parseStep_skip d l he]
      constructor
      · rintro (hm | ⟨l', hl', hel, hn⟩)
        · exact Or.inl hm
        · exact Or.inr ⟨l', List.mem_cons_of_mem l hl', hel, hn⟩
      · rintro (hm | ⟨l', hl', hel, hn⟩)
        · exact Or.inl hm
        · rcases List.mem_cons.mp hl' with rfl | hl''
          · exact absurd hel he
          · exact Or.inr ⟨l', hl'', hel, hn⟩

theorem foldl_parseStep_nodup (lines : List String) (d : List (String × String))
    (h : (d.map Prod.fst).Nodup) :
    ((lines.foldl parseStep d).map Prod.fst).Nodup := by
  induction lines generalizing d with
  | nil => exact h
  | cons l lines ih =>
    rw [List.foldl_cons]
    apply ih
    by_cases he : lineEligible l
    · rw [parseStep_eligible d l he]
      exact dictInsert_keys_nodup _ _ _ h
    · rwa [parseStep_skip d l he]

theorem splitWsGo_eq_nil (cs : List Char) : ∀ acc, splitWsGo cs acc = [] →
    acc = [] ∧ ∀ c ∈ cs, pyIsSpace c = true := by
  induction cs with
  | nil =>
    intro acc h
    unfold splitWsGo at h
    by_cases ha : acc.isEmpty
    · exact ⟨List.isEmpty_iff.mp ha, by intro c hc; cases hc⟩
    · rw [if_neg ha] at h
      cases h
  | cons c cs ih =>
    intro acc h
    unfold splitWsGo at h
    by_cases hs : pyIsSpace c
    · rw [if_pos hs] at h
      by_cases ha : acc.isEmpty
      · rw [if_pos ha] at h
        obtain ⟨_, h2⟩ := ih [] h
        refine ⟨List.isEmpty_iff.mp ha, ?_⟩
        intro c' hc'
        rcases List.mem_cons.mp hc' with rfl | hc''
        · exact hs
        · exact h2 c' hc''
      · rw [if_neg ha] at h
        cases h
    · rw [if_neg hs] at h
      obtain ⟨h1, _⟩ := ih (c :: acc) h
      cases h1

theorem splitWs_token_ne_nil (cs : List Char) :
    ∀ acc t, t ∈ splitWsGo cs acc → t.data ≠ [] := by
  induction cs with
  | nil =>
    intro acc t h
    unfold splitWsGo at h
    by_cases ha : acc.isEmpty
    · rw [if_pos ha] at h
      cases h
    · rw [if_neg ha] at h
      rcases List.mem_singleton.mp h with rfl
      show acc.reverse ≠ []
      simpa using fun hnil => ha (by rw [hnil]; rfl)
  | cons c cs ih =>
    intro acc t h
    unfold splitWsGo at h
    by_cases hs : pyIsSpace c
    · rw [if_pos hs] at h
      by_cases ha : acc.isEmpty
      · rw [if_pos ha] at h
        exact ih [] t h
      · rw [if_neg ha] at h
        rcases List.mem_cons.mp h with rfl | h'
        · show acc.reverse ≠ []
          simpa using fun hnil => ha (by rw [hnil]; rfl)
        · exact ih [] t h'
    · rw [if_neg hs] at h
      exact ih (c :: acc) t h

theorem eligible_has_token (line : String) (he : lineEligible line = true) :
    pySplitWs line ≠ [] := by
  have hslash : '/' ∈ line.data := by
    have h2 := (Bool.and_eq_true _ _).mp he |>.2
    rw [List.contains] at h2
    exact List.elem_iff.mp h2
  intro hnil
  obtain ⟨_, hall⟩ := splitWsGo_eq_nil line.data [] hnil
  have hsp := hall '/' hslash
  have : pyIsSpace '/' = false := by decide
  rw [this] at hsp
  cases hsp

theorem beforeSlash_ne_empty (s : String) (hne : s.data ≠ [])
    (hh : s.data.head? ≠ some '/') : beforeSlash s ≠ "" := by
  apply str_ne_empty_of_data
  show s.data.takeWhile (fun c => c != '/') ≠ []
  cases hs : s.data with
  | nil => exact absurd hs hne
  | cons c cs =>
    have hc : c ≠ '/' := by
      rw [hs] at hh
      simpa using hh
    rw [List.takeWhile_cons_of_pos (by simpa using hc)]
    simp

/-! Lemmas about the report builder. -/

theorem flatMap_singleton_eq_map {α β} (f : α → β) (l : List α) :
    (l.flatMap fun a => [f a]) = l.map f := by
  induction l with
  | nil => rfl
  | cons a l ih => simp [ih]

theorem mdLines_eq (items : List AuditItem) :
    mdLines items = "# Audit de mise à jour\n" :: items.flatMap mdItemLines := by
  unfold mdLines
  rw [foldl_append_blocks]
  rfl

theorem htmlLines_eq (items : List AuditItem) :
    htmlLines items =
      htmlHeaderLines ++ items.map htmlRow ++ ["</table>", "</body></html>"] := by
  unfold htmlLines
  rw [foldl_append_blocks, flatMap_singleton_eq_map]

theorem isMdHeadingLine_block (it : AuditItem) :
    (mdItemLines it).filter isMdHeadingLine = ["## " ++ it.name] := by
  have h1 : isMdHeadingLine ("## " ++ it.name) = true := by
    apply decide_eq_true
    rw [String.data_append]
    exact List.prefix_append _ _
  have h2 : isMdHeadingLine ("- Version actuelle : " ++ it.current) = false := by
    apply decide_eq_false
    rw [String.data_append]
    exact not_prefix_append_of (by decide) (by decide) _
  have h3 : isMdHeadingLine ("- Version disponible : " ++ it.candidate) = false := by
    apply decide_eq_false
    rw [String.data_append]
    exact not_prefix_append_of (by decide) (by decide) _
  have h4 : isMdHeadingLine
      ("- Breaking change : " ++ (if it.breaking then "Oui" else "Non")) = false := by
    apply decide_eq_false
    rw [String.data_append]
    exact not_prefix_append_of (by decide) (by decide) _
  have h5 : isMdHeadingLine
      ("- Statut : " ++ (if it.safe then "safe" else "not safe")) = false := by
    apply decide_eq_false
    rw [String.data_append]
    exact not_prefix_append_of (by decide) (by decide) _
  have h6 : isMdHeadingLine
      ("- Fichier de configuration : `" ++ it.config.getD "" ++ "`") = false := by
    apply decide_eq_false
    rw [String.data_append, String.data_append, List.append_assoc]
    exact not_prefix_append_of (by decide) (by decide) _
  have h7 : isMdHeadingLine ("- Analyse : " ++ it.summary ++ "\n") = false := by
    apply decide_eq_false
    rw [String.data_append, String.data_append, List.append_assoc]
    exact not_prefix_append_of (by decide) (by decide) _
  unfold mdItemLines
  by_cases hc : it.config.getD "" ≠ ""
  · rw [if_pos hc]
    simp [List.filter_cons, List.filter_append, h1, h2, h3, h4, h5, h6, h7]
  · rw [if_neg hc]
    simp [List.filter_cons, List.filter_append, h1, h2, h3, h4, h5, h7]

theorem isConfigLine_block (it : AuditItem) :
    (mdItemLines it).filter isConfigLine =
      (if it.config.getD "" ≠ "" then
        ["- Fichier de configuration : `" ++ it.config.getD "" ++ "`"]
       else []) := by
  have h1 : isConfigLine ("## " ++ it.name) = false := by
    apply decide_eq_false
    rw [String.data_append]
    exact not_prefix_append_of (by decide) (by decide) _
  have h2 : isConfigLine ("- Version actuelle : " ++ it.current) = false := by
    apply decide_eq_false
    rw [String.data_append]
    exact not_prefix_append_of (by decide) (by decide) _
  have h3 : isConfigLine ("- Version disponible : " ++ it.candidate) = false := by
    apply decide_eq_false
    rw [String.data_append]
    exact not_prefix_append_of (by decide) (by decide) _
  have h4 : isConfigLine
      ("- Breaking change : " ++ (if it.breaking then "Oui" else "Non")) = false := by
    apply decide_eq_false
    rw [String.data_append]
    exact not_prefix_append_of (by decide) (by decide) _
  have h5 : isConfigLine
      ("- Statut : " ++ (if it.safe then "safe" else "not safe")) = false := by
    apply decide_eq_false
    rw [String.data_append]
    exact not_prefix_append_of (by decide) (by decide) _
  have h6 : isConfigLine
      ("- Fichier de configuration : `" ++ it.config.getD "" ++ "`") = true := by
    apply decide_eq_true
    rw [String.data_append, String.data_append]
    exact isPrefix_extend_right (isPrefix_extend_right (by decide) _) _
  have h7 : isConfigLine ("- Analyse : " ++ it.summary ++ "\n") = false := by
    apply decide_eq_false
    rw [String.data_append, String.data_append, List.append_assoc]
    exact not_prefix_append_of (by decide) (by decide) _
  unfold mdItemLines
  by_cases hc : it.config.getD "" ≠ ""
  · rw [if_pos hc]
    simp [List.filter_cons, List.filter_append, h1, h2, h3, h4, h5, h6, h7]
  · rw [if_neg hc]
    simp [List.filter_cons, List.filter_append, h1, h2, h3, h4, h5, h7]

theorem isHtmlRowLine_htmlRow (it : AuditItem) :
    isHtmlRowLine (htmlRow it) = true := by
  apply decide_eq_true
  unfold htmlRow
  simp only [String.data_append]
  repeat apply isPrefix_extend_right
  exact List.prefix_rfl

theorem flatMap_filter_headings (items : List AuditItem) :
    (items.flatMap mdItemLines).filter isMdHeadingLine =
      items.map (fun it => "## " ++ it.name) := by
  induction items with
  | nil => rfl
  | cons it items ih =>
    rw [List.flatMap_cons, List.filter_append, isMdHeadingLine_block, ih]
    rfl

theorem mdLines_filter_headings (items : List AuditItem) :
    (mdLines items).filter isMdHeadingLine =
      items.map (fun it => "## " ++ it.name) := by
  rw [mdLines_eq, List.filter_cons_of_neg (by decide), flatMap_filter_headings]

theorem htmlLines_filter_rows (items : List AuditItem) :
    (htmlLines items).filter isHtmlRowLine = items.map htmlRow := by
  rw [htmlLines_eq, List.filter_append, List.filter_append]
  have hhead : htmlHeaderLines.filter isHtmlRowLine = [] := by decide
  have htail : (["</table>", "</body></html>"] : List String).filter isHtmlRowLine = [] := by
    decide
  have hmid : (items.map htmlRow).filter isHtmlRowLine = items.map htmlRow := by
    rw [List.filter_eq_self]
    intro a ha
    rcases List.mem_map.mp ha with ⟨it, _, rfl⟩
    exact isHtmlRowLine_htmlRow it
  rw [hhead, htail, hmid]
  simp

/-! Claim theorems. -/

/-- C1: classification of the backend response text, applied
case-insensitively: the result's `safe` flag is true iff the (lowercased)
response text contains "safe" and does not contain "not safe"; the
`breaking` flag is true iff it contains "breaking"; in particular a text
containing "not safe" never classifies as safe. -/
theorem response_classification (isfile : String → Bool)
    (readFile : String → Option String)
    (netOpenai netOpenllm : String → BackendOutcome)
    (llm name current candidate : String) (config_path : Option String)
    (changelog : String) :
    let r := analyze_package isfile readFile netOpenai netOpenllm llm name
      current candidate config_path changelog
    (r.safe = true ↔
      ("safe".data <:+: (lowerStr r.summary).data ∧
        ¬ "not safe".data <:+: (lowerStr r.summary).data)) ∧
    (r.breaking = true ↔ "breaking".data <:+: (lowerStr r.summary).data) ∧
    ("not safe".data <:+: (lowerStr r.summary).data → r.safe = false) := by
  simp only [analyze_package, pyIn, beq_iff_eq]
  refine ⟨?_, ?_, ?_⟩
  · simp [Bool.and_eq_true, Bool.not_eq_true', decide_eq_true_iff,
      decide_eq_false_iff_not]
  · simp [decide_eq_true_iff]
  · intro hns
    simp [Bool.and_eq_true, Bool.not_eq_true', decide_eq_false_iff_not, hns]

/-- C7: the report builder is a pure function: calling it twice on equal
result lists and equal format strings yields identical (byte-identical)
output. -/
theorem report_builder_pure (r1 r2 : List AuditItem) (f1 f2 : String)
    (hr : r1 = r2) (hf : f1 = f2) :
    generate_report r1 f1 = generate_report r2 f2 := by
  rw [hr, hf]

/-- Witness for C7 at a concrete input. -/
theorem report_builder_pure_witness :
    generate_report [] "md" = generate_report [] "md" :=
  report_builder_pure [] [] "md" "md" rfl rfl

/-- C10: any format string other than exactly "html" (for example "md" or
an unrecognized value) selects the Markdown shape, and the builder is
total; only the exact string "html" selects the HTML shape. -/
theorem format_fallback (items : List AuditItem) (fmt : String)
    (h : fmt ≠ "html") :
    generate_report items fmt = generate_report items "md" ∧
    generate_report items "html" = String.intercalate "\n" (htmlLines items) := by
  constructor
  · unfold generate_report
    rw [if_neg (by simpa using h), if_neg (by decide)]
  · unfold generate_report
    rw [if_pos (by decide)]

/-- Witness for C10 at a concrete unrecognized format string. -/
theorem format_fallback_witness :
    generate_report [] "xml" = generate_report [] "md" :=
  (format_fallback [] "xml" (by decide)).1

/-- Witness for C1 at a concrete backend response containing "not safe". -/
theorem response_classification_witness :
    (analyze_package (fun _ => false) (fun _ => none)
      (fun _ => .ok "It is not safe.") (fun _ => .ok "It is not safe.")
      "openai" "p" "1" "2" none "").safe = false :=
  (response_classification (fun _ => false) (fun _ => none)
      (fun _ => .ok "It is not safe.") (fun _ => .ok "It is not safe.")
      "openai" "p" "1" "2" none "").2.2 (by decide)

/-- C5: the config locator checks the four fixed candidate paths in order
and returns the first that exists; otherwise it returns the first
existing line of the depth-1 filename search's output; otherwise `none`.
It agrees with the specification-shaped `locate_spec`, every returned
path exists on disk, and it is total (never raises). -/
theorem config_locator_contract (pathExists : String → Bool)
    (runCmd : String → String) (package : String) :
    (find_config_path pathExists runCmd package =
      locate_spec pathExists (pySplitlines (runCmd (searchCmd package))) package) ∧
    (∀ r, find_config_path pathExists runCmd package = some r →
      pathExists r = true) ∧
    ((∀ c ∈ candidatePaths package, pathExists c = false) →
      find_config_path pathExists runCmd package =
        (pySplitlines (runCmd (searchCmd package))).find? pathExists) ∧
    ((∀ c ∈ candidatePaths package, pathExists c = false) →
      (∀ l ∈ pySplitlines (runCmd (searchCmd package)), pathExists l = false) →
      find_config_path pathExists runCmd package = none) := by
  refine ⟨rfl, ?_, ?_, ?_⟩
  · intro r hr
    unfold find_config_path at hr
    rcases hc : (candidatePaths package).find? pathExists with _ | c
    · rw [hc] at hr
      exact List.find?_some hr
    · rw [hc] at hr
      cases hr
      exact List.find?_some hc
  · intro hnone
    unfold find_config_path
    rw [List.find?_eq_none.mpr (by intro c hcm hcp; rw [hnone c hcm] at hcp; cases hcp)]
  · intro hnone hsearch
    unfold find_config_path
    rw [List.find?_eq_none.mpr (by intro c hcm hcp; rw [hnone c hcm] at hcp; cases hcp)]
    exact List.find?_eq_none.mpr
      (by intro l hlm hlp; rw [hsearch l hlm] at hlp; cases hlp)

/-- Witness for C5: with a filesystem where only `/etc/nginx.conf` exists
the second candidate is returned; with an empty filesystem and empty
search output the locator returns `none`. -/
theorem config_locator_contract_witness :
    find_config_path (fun p => p == "/etc/nginx.conf") (fun _ => "") "nginx" =
      some "/etc/nginx.conf" ∧
    find_config_path (fun _ => false) (fun _ => "") "nginx" = none := by
  constructor
  · have h := (config_locator_contract (fun p => p == "/etc/nginx.conf")
      (fun _ => "") "nginx").1
    rw [h]
    decide
  · exact (config_locator_contract (fun _ => false) (fun _ => "") "nginx").2.2.2
      (by intro c _; rfl) (by intro l hl; rfl)

/-- C4: inventory parser contract.  A name `k` appears in the produced
inventory exactly when some line of the input is non-empty, contains `/`
and has `k` as the text before the first `/` of its first whitespace
token; the stored version for `k` is the one of the last such line
(token 1, or the empty string when the line has a single token); every
eligible line has at least one whitespace token (so the source's
`parts[0]` never faults and the parser never raises, being total by
construction); and the produced keys are pairwise distinct. -/
theorem inventory_parser_contract (output : String) (k : String) :
    (k ∈ (parse_apt_list output).map Prod.fst ↔
      ∃ l ∈ pySplitlines output, lineEligible l = true ∧ lineName l = k) ∧
    (dictGet (parse_apt_list output) k =
      (((pySplitlines output).filter
        (fun l => lineEligible l && (lineName l == k))).map lineVersion).getLast?) ∧
    (∀ l ∈ pySplitlines output, lineEligible l = true → pySplitWs l ≠ []) ∧
    ((parse_apt_list output).map Prod.fst).Nodup := by
  refine ⟨?_, ?_, ?_, ?_⟩
  · unfold parse_apt_list
    rw [foldl_parseStep_mem]
    simp
  · unfold parse_apt_list
    rw [foldl_parseStep_get]
    rcases ((pySplitlines output).filter
        (fun l => lineEligible l && (lineName l == k))).map lineVersion
      |>.getLast? with _ | v
    · rfl
    · rfl
  · intro l _ he
    exact eligible_has_token l he
  · unfold parse_apt_list
    exact foldl_parseStep_nodup _ _ (by simp)

/-- Witness for C4: the contract applied to a concrete two-line listing
with a duplicated package name. -/
theorem inventory_parser_contract_witness :
    dictGet (parse_apt_list "foo/a 1.0\nfoo/b 2.0") "foo" = some "2.0" := by
  have h := (inventory_parser_contract "foo/a 1.0\nfoo/b 2.0" "foo").2.1
  rw [h]
  decide

/-- C9 fails on the code as stated: a line whose first token begins with
`/` yields the empty string as inventory key.  Concrete counterexample:
the single-line listing "/pkg 1.0" produces the key "". -/
theorem inventory_empty_key_cex :
    "" ∈ (parse_apt_list "/pkg 1.0").map Prod.fst := by
  decide

/-- C9 (amended): every key of the produced inventory is non-empty
provided no eligible line's first whitespace token begins with `/`
(real `apt list` output always satisfies this; a key is empty exactly
when its line's first token starts with `/`). -/
theorem inventory_keys_nonempty (output : String)
    (h : ∀ l ∈ pySplitlines output, lineEligible l = true →
      ((pySplitWs l).headD "").data.head? ≠ some '/') :
    ∀ k ∈ (parse_apt_list output).map Prod.fst, k ≠ "" := by
  intro k hk
  have hmem : ∃ l ∈ pySplitlines output, lineEligible l = true ∧
      lineName l = k := by
    unfold parse_apt_list at hk
    rw [foldl_parseStep_mem] at hk
    simpa using hk
  obtain ⟨l, hl, hel, hn⟩ := hmem
  subst hn
  have htok : pySplitWs l ≠ [] := eligible_has_token l hel
  have hhd : (pySplitWs l).headD "" ∈ pySplitWs l := by
    rcases hts : pySplitWs l with _ | ⟨t, ts⟩
    · exact absurd hts htok
    · simp
  have hne : ((pySplitWs l).headD "").data ≠ [] :=
    splitWs_token_ne_nil l.data [] _ hhd
  exact beforeSlash_ne_empty _ hne (h l hl hel)

/-- Witness for C9 (amended) on a well-formed listing line. -/
theorem inventory_keys_nonempty_witness :
    "foo" ∈ (parse_apt_list "foo/stable 1.0").map Prod.fst ∧ "foo" ≠ "" :=
  ⟨by decide,
    inventory_keys_nonempty "foo/stable 1.0" (by decide) "foo" (by decide)⟩

/-- A synthetic failure string `prefixStr ++ cause` classifies as neither
safe nor breaking when the cause does not contain those words and the
fixed prefix neither contains them nor ends in a proper prefix of them. -/
theorem failure_string_not_classified (prefixStr cause : String)
    (hps : ¬ "safe".data <:+: (lowerStr prefixStr).data)
    (hpb : ¬ "breaking".data <:+: (lowerStr prefixStr).data)
    (h3s : ∀ i, i < ("safe".data).length → 0 < i →
      ¬ ("safe".data.take i) <:+ (lowerStr prefixStr).data)
    (h3b : ∀ i, i < ("breaking".data).length → 0 < i →
      ¬ ("breaking".data.take i) <:+ (lowerStr prefixStr).data)
    (hs : ¬ "safe".data <:+: (lowerStr cause).data)
    (hb : ¬ "breaking".data <:+: (lowerStr cause).data) :
    pyIn "safe" (lowerStr (prefixStr ++ cause)) = false ∧
    pyIn "breaking" (lowerStr (prefixStr ++ cause)) = false := by
  constructor
  · unfold pyIn
    apply decide_eq_false
    rw [lowerStr_append, String.data_append]
    exact not_infix_append hps hs h3s
  · unfold pyIn
    apply decide_eq_false
    rw [lowerStr_append, String.data_append]
    exact not_infix_append hpb hb h3b

/-- C2: failure containment of the risk analyzer.  If the selected
backend's request fails (raises or times out), `analyze_package` still
returns an `AuditItem` (it is total, hence never throws) whose summary is
the non-empty synthetic failure string of the selected request wrapper,
and — provided the failure cause contains neither "safe" nor "breaking"
(case-insensitively) — the flags are `safe = false` and
`breaking = false`. -/
theorem failure_containment (isfile : String → Bool)
    (readFile : String → Option String)
    (netOpenai netOpenllm : String → BackendOutcome)
    (llm name current candidate : String) (config_path : Option String)
    (changelog cause : String)
    (hfail : (if llm == "openllm" then netOpenllm else netOpenai)
      (buildPrompt isfile readFile name current candidate config_path
        changelog) = .failed cause) :
    let r := analyze_package isfile readFile netOpenai netOpenllm llm name
      current candidate config_path changelog
    r.summary =
      (if llm == "openllm" then "OpenLLM request failed: "
       else "OpenAI request failed: ") ++ cause ∧
    r.summary ≠ "" ∧
    (¬ "safe".data <:+: (lowerStr cause).data →
      ¬ "breaking".data <:+: (lowerStr cause).data →
      r.safe = false ∧ r.breaking = false) := by
  by_cases hl : (llm == "openllm") = true
  · rw [if_pos hl] at hfail
    simp only [analyze_package, hl, if_true, hfail, openllm_request]
    refine ⟨trivial, ?_, ?_⟩
    · apply str_ne_empty_of_data
      rw [String.data_append]
      intro he
      have := congrArg List.length he
      simp at this
    · intro hs hb
      have hcl := failure_string_not_classified "OpenLLM request failed: "
        cause (by decide) (by decide) (by decide) (by decide) hs hb
      rw [hcl.1, hcl.2]
      exact ⟨by simp, by simp⟩
  · have hl' : (llm == "openllm") = false := by
      revert hl
      cases llm == "openllm" <;> simp
    rw [hl'] at hfail
    simp only [Bool.false_eq_true, if_false] at hfail
    simp only [analyze_package, hl', Bool.false_eq_true, if_false, hfail,
      openai_request]
    refine ⟨trivial, ?_, ?_⟩
    · apply str_ne_empty_of_data
      rw [String.data_append]
      intro he
      have := congrArg List.length he
      simp at this
    · intro hs hb
      have hcl := failure_string_not_classified "OpenAI request failed: "
        cause (by decide) (by decide) (by decide) (by decide) hs hb
      rw [hcl.1, hcl.2]
      exact ⟨by simp, by simp⟩

/-- Witness for C2: a concrete timeout failure of the OpenAI backend. -/
theorem failure_containment_witness :
    (analyze_package (fun _ => false) (fun _ => none)
      (fun _ => .failed "timeout") (fun _ => .ok "")
      "openai" "foo" "1.0" "2.0" none "").summary =
        "OpenAI request failed: timeout" ∧
    (analyze_package (fun _ => false) (fun _ => none)
      (fun _ => .failed "timeout") (fun _ => .ok "")
      "openai" "foo" "1.0" "2.0" none "").safe = false ∧
    (analyze_package (fun _ => false) (fun _ => none)
      (fun _ => .failed "timeout") (fun _ => .ok "")
      "openai" "foo" "1.0" "2.0" none "").breaking = false := by
  have h := failure_containment (fun _ => false) (fun _ => none)
    (fun _ => .failed "timeout") (fun _ => .ok "")
    "openai" "foo" "1.0" "2.0" none "" "timeout" rfl
  refine ⟨h.1.trans (by decide), ?_, ?_⟩
  · exact (h.2.2 (by decide) (by decide)).1
  · exact (h.2.2 (by decide) (by decide)).2

theorem infix_extend_right {α} {s t : List α} (h : s <:+: t) (b : List α) :
    s <:+: t ++ b :=
  h.trans (List.prefix_append t b).isInfix

theorem infix_extend_left {α} {s t : List α} (h : s <:+: t) (a : List α) :
    s <:+: a ++ t :=
  h.trans (List.suffix_append a t).isInfix

/-- C3: total coverage of the orchestrator.  For every pair of inventory
texts and every oracle environment, the pipeline produces exactly one
`AuditItem` per key of the parsed upgradable inventory, in inventory
order (even when every backend query fails, since the oracles are
arbitrary); the produced names are pairwise distinct; and the rendered
report carries exactly one Markdown section heading, and exactly one
HTML data row, per such package, in the same order. -/
theorem total_coverage (pathExists : String → Bool) (runCmd : String → String)
    (changelogOf : String → String) (isfile : String → Bool)
    (readFile : String → Option String)
    (netOpenai netOpenllm : String → BackendOutcome) (llm : String)
    (installedText upgradableText : String) :
    let items := runAudit pathExists runCmd changelogOf isfile readFile
      netOpenai netOpenllm llm installedText upgradableText
    (items.map AuditItem.name = (parse_apt_list upgradableText).map Prod.fst) ∧
    (items.map AuditItem.name).Nodup ∧
    ((mdLines items).filter isMdHeadingLine =
      (parse_apt_list upgradableText).map (fun p => "## " ++ p.1)) ∧
    ((htmlLines items).filter isHtmlRowLine = items.map htmlRow) := by
  have hmap : (runAudit pathExists runCmd changelogOf isfile readFile
      netOpenai netOpenllm llm installedText upgradableText).map AuditItem.name =
      (parse_apt_list upgradableText).map Prod.fst := by
    unfold runAudit
    rw [List.map_map]
    apply List.map_congr_left
    intro pc _
    rfl
  refine ⟨hmap, ?_, ?_, ?_⟩
  · rw [hmap]
    unfold parse_apt_list
    exact foldl_parseStep_nodup _ _ (by simp)
  · rw [mdLines_filter_headings]
    have hcomp : (fun it : AuditItem => "## " ++ it.name) =
        ((fun s => "## " ++ s) ∘ AuditItem.name) := rfl
    rw [hcomp, ← List.map_map, hmap, List.map_map]
    rfl
  · exact htmlLines_filter_rows _

/-- C6 as stated fails on the code: a result whose `configPath` is
present but equal to the empty string gets no configuration-path line
(Python truthiness), although the path is present.  Concrete
counterexample record below. -/
theorem markdown_config_line_cex :
    (AuditItem.mk "p" "1" "2" (some "") false false "s").config.isSome = true ∧
    (mdItemLines (AuditItem.mk "p" "1" "2" (some "") false false "s")).filter
      isConfigLine = [] := by
  exact ⟨rfl, by decide⟩

/-- C6 (amended): Markdown report shape.  The output is the top-level
heading followed by the per-result blocks; each block is the sub-heading
and the four fixed field lines, a configuration-path line exactly when
`configPath` is present with a non-empty path, and the analysis line with
the full summary.  The stated scenario holds: backend answer
"No compatibility issues found. safe" for package foo yields
breaking=false, safe=true and a `## foo` section with `Statut : safe`. -/
theorem markdown_shape (items : List AuditItem) :
    (generate_report items "md" =
      String.intercalate "\n"
        ("# Audit de mise à jour\n" :: items.flatMap mdItemLines)) ∧
    (∀ it, it.config.getD "" = "" →
      mdItemLines it =
        ["## " ++ it.name,
         "- Version actuelle : " ++ it.current,
         "- Version disponible : " ++ it.candidate,
         "- Breaking change : " ++ (if it.breaking then "Oui" else "Non"),
         "- Statut : " ++ (if it.safe then "safe" else "not safe"),
         "- Analyse : " ++ it.summary ++ "\n"]) ∧
    (∀ it, it.config.getD "" ≠ "" →
      mdItemLines it =
        ["## " ++ it.name,
         "- Version actuelle : " ++ it.current,
         "- Version disponible : " ++ it.candidate,
         "- Breaking change : " ++ (if it.breaking then "Oui" else "Non"),
         "- Statut : " ++ (if it.safe then "safe" else "not safe"),
         "- Fichier de configuration : `" ++ it.config.getD "" ++ "`",
         "- Analyse : " ++ it.summary ++ "\n"]) ∧
    (∀ it, (mdItemLines it).filter isConfigLine ≠ [] ↔
      it.config.getD "" ≠ "") ∧
    (let r := analyze_package (fun _ => false) (fun _ => none)
        (fun _ => .ok "No compatibility issues found. safe")
        (fun _ => .ok "No compatibility issues found. safe")
        "openai" "foo" "1.0" "2.0" none "";
      r.breaking = false ∧ r.safe = true ∧
      "## foo" ∈ mdLines [r] ∧ "- Statut : safe" ∈ mdLines [r]) := by
  refine ⟨?_, ?_, ?_, ?_, ?_, ?_, ?_⟩
  · unfold generate_report
    rw [if_neg (by decide), mdLines_eq]
  · intro it hc
    unfold mdItemLines
    rw [if_neg (show ¬ (it.config.getD "" ≠ "") from by simp [hc])]
    simp
  · intro it hc
    unfold mdItemLines
    rw [if_pos (show it.config.getD "" ≠ "" from hc)]
    simp
  · intro it
    rw [isConfigLine_block]
    by_cases hc : it.config.getD "" ≠ ""
    · simp [hc]
    · simp [hc]
  · decide
  · decide
  · exact ⟨by decide, by decide⟩

/-- Witness for C6 (amended) at a concrete result record. -/
theorem markdown_shape_witness :
    mdItemLines (AuditItem.mk "p" "1" "2" none false true "ok") =
      ["## p", "- Version actuelle : 1", "- Version disponible : 2",
       "- Breaking change : Non", "- Statut : safe", "- Analyse : ok\n"] := by
  have h := (markdown_shape []).2.1
    (AuditItem.mk "p" "1" "2" none false true "ok") (by decide)
  rw [h]
  decide


theorem buildPrompt_none (isfile : String → Bool)
    (readFile : String → Option String)
    (name current candidate changelog : String) :
    buildPrompt isfile readFile name current candidate none changelog =
      basePrompt name current candidate none changelog := rfl

theorem buildPrompt_some (isfile : String → Bool)
    (readFile : String → Option String)
    (name current candidate p changelog : String) :
    buildPrompt isfile readFile name current candidate (some p) changelog =
      (if p != "" && isfile p then
        match readFile p with
        | some content =>
          basePrompt name current candidate (some p) changelog ++
            fenceStr content
        | none => basePrompt name current candidate (some p) changelog
       else basePrompt name current candidate (some p) changelog) := rfl

/-- C8: prompt construction.  Every built prompt contains the question
asking whether breaking changes exist; the literal configuration content
is appended to the base prompt as a fenced block if and only if a
configuration path was supplied, `os.path.isfile` accepts it, and the
read succeeds; and on a read failure the prompt is silently the base
prompt (no error is raised, the function being total).  The hypothesis
`isfile "" = false` records that the empty path never names a regular
file, matching `os.path.isfile`. -/
theorem prompt_construction (isfile : String → Bool)
    (readFile : String → Option String)
    (name current candidate : String) (config_path : Option String)
    (changelog : String) (hfs : isfile "" = false) :
    ("Indique s\x27il existe des breaking changes".data <:+:
      (buildPrompt isfile readFile name current candidate config_path
        changelog).data) ∧
    ((∃ content,
        buildPrompt isfile readFile name current candidate config_path
          changelog =
        basePrompt name current candidate config_path changelog ++
          fenceStr content) ↔
      (∃ p, config_path = some p ∧ isfile p = true ∧ (readFile p).isSome)) ∧
    (∀ p, config_path = some p → isfile p = true → readFile p = none →
      buildPrompt isfile readFile name current candidate config_path
        changelog =
      basePrompt name current candidate config_path changelog) := by
  have hbase : "Indique s\x27il existe des breaking changes".data <:+:
      (basePrompt name current candidate config_path changelog).data := by
    unfold basePrompt
    simp only [String.data_append]
    exact infix_extend_right (infix_extend_right (infix_extend_left
      (by decide) _) _) _
  have hlen : ∀ (b c : String), b ≠ b ++ fenceStr c := by
    intro b c h
    have hdata := congrArg (fun s => s.data.length) h
    have h30 : ("\n\nConfiguration actuelle:\n```\n" : String).data.length = 30 := by
      decide
    have h4 : ("\n```" : String).data.length = 4 := by decide
    simp only [String.data_append, fenceStr, List.length_append, h30, h4]
      at hdata
    omega
  have hpne : ∀ p, isfile p = true → (p != "") = true := by
    intro p hfile
    by_cases hp : p = ""
    · subst hp
      rw [hfile] at hfs
      cases hfs
    · exact bne_iff_ne.mpr hp
  refine ⟨?_, ?_, ?_⟩
  · rcases config_path with _ | p
    · rw [buildPrompt_none]
      exact hbase
    · rw [buildPrompt_some]
      by_cases hcond : (p != "" && isfile p) = true
      · rw [if_pos hcond]
        rcases hread : readFile p with _ | content
        · exact hbase
        · rw [String.data_append]
          exact infix_extend_right hbase _
      · rw [if_neg hcond]
        exact hbase
  · constructor
    · rintro ⟨content, heq⟩
      rcases config_path with _ | p
      · rw [buildPrompt_none] at heq
        exact absurd heq (hlen _ content)
      · rw [buildPrompt_some] at heq
        by_cases hcond : (p != "" && isfile p) = true
        · rw [if_pos hcond] at heq
          rcases hread : readFile p with _ | c
          · rw [hread] at heq
            exact absurd heq (hlen _ content)
          · refine ⟨p, rfl, ((Bool.and_eq_true _ _).mp hcond).2, ?_⟩
            rw [hread]
            rfl
        · rw [if_neg hcond] at heq
          exact absurd heq (hlen _ content)
    · rintro ⟨p, rfl, hfile, hsome⟩
      rcases hread : readFile p with _ | c
      · rw [hread] at hsome
        cases hsome
      · refine ⟨c, ?_⟩
        rw [buildPrompt_some, if_pos (by rw [hpne p hfile, hfile]; rfl), hread]
  · intro p hp hfile hread
    subst hp
    rw [buildPrompt_some, if_pos (by rw [hpne p hfile, hfile]; rfl), hread]

/-- Witness for C8: a supplied regular-file path whose read fails leaves
the prompt equal to the base prompt. -/
theorem prompt_construction_witness :
    buildPrompt (fun q => q == "/etc/app.conf") (fun _ => none)
      "app" "1" "2" (some "/etc/app.conf") "" =
    basePrompt "app" "1" "2" (some "/etc/app.conf") "" :=
  (prompt_construction (fun q => q == "/etc/app.conf") (fun _ => none)
    "app" "1" "2" (some "/etc/app.conf") "" (by decide)).2.2
    "/etc/app.conf" rfl (by decide) rfl
